import Mathlib

/-!
Verification development for the SNBT text-to-tree core (src/snbt.rs).

The source builds a lexer and a grammar engine from chumsky parser
combinators.  Chumsky combinators follow PEG semantics: ordered choice
with local backtracking (a failed alternative restores the input
position and the next alternative is tried from the same position; a
successful alternative commits).  We embed that semantics shallowly:

  Prs tau alpha  :=  List tau -> Option (alpha x List tau)

where a result carries the parsed value and the unconsumed rest of the
input; failure is none.  Diagnostic payloads of chumsky errors
(Simple.custom messages, spans) are abstracted away: only success,
failure and the consumed input are modelled, which is what the claims
under study depend on.  Repetition combinators take an explicit fuel
argument so that every definition is structurally recursive and
kernel-reducible; the entry points pass fuel larger than the input
length, which the lemmas show is never exhausted on the paths they
cover.

Unicode caveat: the source uses char::is_alphanumeric (Unicode) in the
numeric boundary check and char::is_whitespace (Unicode) for padding;
the model uses the ASCII fragment (Char.isAlphanum, Char.isWhitespace),
which agrees with the source on all ASCII inputs, and every input in
the claims is ASCII.  All other character classes in the source are
already ASCII (is_ascii_alphanumeric, explicit character lists).
-/

/-- A PEG-style parser over a token type tau: on success it returns the
value and the remaining input, on failure none (chumsky with the error
payload abstracted). -/
def Prs (tau alpha : Type) : Type := List tau → Option (alpha × List tau)

/-- chumsky filter: consume one item satisfying the predicate. -/
def pSat {tau : Type} (f : tau → Bool) : Prs tau tau := fun ts =>
  match ts with
  | [] => none
  | t :: rest => if f t then some (t, rest) else none

/-- chumsky just: consume one expected item. -/
def pJust {tau : Type} [DecidableEq tau] (t : tau) : Prs tau tau :=
  pSat (fun x => decide (x = t))

/-- chumsky map. -/
def pMap {tau alpha beta : Type} (p : Prs tau alpha) (f : alpha → beta) : Prs tau beta :=
  fun ts =>
    match p ts with
    | some (a, rest) => some (f a, rest)
    | none => none

/-- chumsky then: sequence two parsers, pairing the results. -/
def pThen {tau alpha beta : Type} (p : Prs tau alpha) (q : Prs tau beta) :
    Prs tau (alpha × beta) := fun ts =>
  match p ts with
  | some (a, ts1) =>
    match q ts1 with
    | some (b, ts2) => some ((a, b), ts2)
    | none => none
  | none => none

/-- chumsky ignore_then. -/
def pIgnoreThen {tau alpha beta : Type} (p : Prs tau alpha) (q : Prs tau beta) :
    Prs tau beta := pMap (pThen p q) (fun x => x.2)

/-- chumsky then_ignore. -/
def pThenIgnore {tau alpha beta : Type} (p : Prs tau alpha) (q : Prs tau beta) :
    Prs tau alpha := pMap (pThen p q) (fun x => x.1)

/-- chumsky or: ordered choice; the second parser is tried from the same
position when the first fails (backtracking with no side effect). -/
def pOrD {tau alpha : Type} (p q : Prs tau alpha) : Prs tau alpha := fun ts =>
  match p ts with
  | some r => some r
  | none => q ts

/-- chumsky or_not: option, never fails. -/
def pOpt {tau alpha : Type} (p : Prs tau alpha) : Prs tau (Option alpha) := fun ts =>
  match p ts with
  | some (a, rest) => some (some a, rest)
  | none => some (none, ts)

/-- chumsky rewind: run the parser but restore the input position. -/
def pRewind {tau alpha : Type} (p : Prs tau alpha) : Prs tau alpha := fun ts =>
  match p ts with
  | some (a, _) => some (a, ts)
  | none => none

/-- chumsky end: succeed exactly at end of input. -/
def pEnd {tau : Type} : Prs tau Unit := fun ts =>
  match ts with
  | [] => some ((), [])
  | _ :: _ => none

/-- chumsky repeated: greedy repetition; the fuel bounds the number of
iterations (entry points pass fuel larger than the input length, and
every iterated parser consumes input, so fuel is never exhausted). -/
def pMany {tau alpha : Type} (p : Prs tau alpha) : Nat → Prs tau (List alpha)
  | 0, _ => none
  | fuel + 1, ts =>
    match p ts with
    | none => some ([], ts)
    | some (a, ts1) =>
      match pMany p fuel ts1 with
      | some (as, ts2) => some (a :: as, ts2)
      | none => none

/-- chumsky repeated().at_least(1). -/
def pMany1 {tau alpha : Type} (p : Prs tau alpha) (fuel : Nat) : Prs tau (List alpha) :=
  pMap (pThen p (pMany p fuel)) (fun x => x.1 :: x.2)

/-- chumsky choice over a list of alternatives, in order. -/
def choiceL {tau alpha : Type} : List (Prs tau alpha) → Prs tau alpha
  | [] => fun _ => none
  | p :: ps => pOrD p (choiceL ps)

/-! ## Token vocabulary (src/snbt.rs lines 110-187) -/

/-- ArrayType from the source: the kind letter of a typed array. -/
inductive ArrayType where
  | byte
  | int
  | long
  deriving DecidableEq, Repr

/-- IntegerType from the source (declared width of an integer literal). -/
inductive IntegerType where
  | byte
  | int
  | short
  | long
  deriving DecidableEq, Repr

/-- DecimalType from the source (declared width of a decimal literal). -/
inductive DecimalType where
  | float
  | double
  deriving DecidableEq, Repr

/-- Token from the source: the closed set of lexer outputs. -/
inductive Token where
  | comma
  | colon
  | arrayStart (k : ArrayType)
  | openBracket
  | closeBracket
  | openBrace
  | closeBrace
  | boolean (b : Bool)
  | integer (text : String) (ty : IntegerType)
  | decimal (text : String) (ty : DecimalType)
  | identifier (text : String)
  | stringLiteral (text : String)
  deriving DecidableEq, Repr

/-! ## Lexer (src/snbt.rs lines 56-108 and 214-339) -/

/-- is_ident_char from the source: ASCII alphanumeric or one of _ - + . -/
def isIdentChar (c : Char) : Bool :=
  c.isAlphanum || c = '_' || c = '-' || c = '+' || c = '.'

/-- identifier() from the source: a run of identifier characters, length
at least one, collected into a string. -/
def identP (fuel : Nat) : Prs Char String :=
  pMap (pMany1 (pSat isIdentChar) fuel) (fun cs => String.mk cs)

/-- ASCII lowercase fold of one character, as a code point number (Rust
to_lowercase restricted to ASCII, which covers every keyword compared by
the source). -/
def charFoldNat (c : Char) : Nat :=
  if 65 ≤ c.toNat && c.toNat ≤ 90 then c.toNat + 32 else c.toNat

/-- strcmp from the source: length check, then equality, case-folded when
ignore_case is set.  (Rust lengths are in bytes and lowercasing is
Unicode; both agree with the model on the ASCII keywords used here.) -/
def strcmpB (ignoreCase : Bool) (lhs rhs : String) : Bool :=
  if lhs.data.length ≠ rhs.data.length then false
  else if ignoreCase then lhs.data.map charFoldNat == rhs.data.map charFoldNat
  else lhs == rhs

/-- keyword(word, ignore_case) from the source: parse a full identifier
run and require it to equal the word under strcmp. -/
def keywordP (word : String) (ignoreCase : Bool) (fuel : Nat) : Prs Char Unit := fun cs =>
  match identP fuel cs with
  | some (text, rest) => if strcmpB ignoreCase word text then some ((), rest) else none
  | none => none

/-- chumsky text::int(10): a digit run whose first digit is nonzero, or
the single digit 0 (no leading zeroes). -/
def textInt (fuel : Nat) : Prs Char (List Char) :=
  pOrD
    (pMap (pThen (pSat (fun c => c.isDigit && !(c = '0'))) (pMany (pSat Char.isDigit) fuel))
      (fun p => p.1 :: p.2))
    (pMap (pJust '0') (fun c => [c]))

/-- chumsky text::digits(10): a nonempty digit run (leading zeroes allowed). -/
def textDigits (fuel : Nat) : Prs Char (List Char) :=
  pMany1 (pSat Char.isDigit) fuel

/-- chumsky text::ident(): a C-style identifier (letter or underscore,
then letters, digits or underscores). -/
def textIdentP (fuel : Nat) : Prs Char String :=
  pMap (pThen (pSat (fun c => c.isAlpha || c = '_')) (pMany (pSat (fun c => c.isAlphanum || c = '_')) fuel))
    (fun p => String.mk (p.1 :: p.2))

/-- chumsky text::keyword: a C-style identifier equal to the given word
(case-sensitive). -/
def textKeywordP (word : String) (fuel : Nat) : Prs Char Unit := fun cs =>
  match textIdentP fuel cs with
  | some (text, rest) => if text == word then some ((), rest) else none
  | none => none

/-- char::is_alphanumeric from Rust, modelled on its ASCII fragment (all
claim inputs are ASCII). -/
def rustIsAlphanumeric (c : Char) : Bool := c.isAlphanum

/-- The numeric boundary character class: not alphanumeric and not one
of _ + - . (source lines 256-259 and 291-294). -/
def isBoundaryChar (c : Char) : Bool :=
  !(rustIsAlphanumeric c) && !(c = '_' || c = '+' || c = '-' || c = '.')

/-- The boundary lookahead used after Integer and Decimal: a boundary
character, or end of input (mapped to the NUL character by the source). -/
def boundaryP : Prs Char Char :=
  pOrD (pSat isBoundaryChar) (pMap pEnd (fun _ => Char.ofNat 0))

/-- Prepend an optional leading character (chumsky chain on an Option). -/
def optCons (o : Option Char) (cs : List Char) : List Char :=
  match o with
  | some c => c :: cs
  | none => cs

/-- The digit text of an Integer token: optional minus, then text::int. -/
def integerTextP (fuel : Nat) : Prs Char String :=
  pMap (pThen (pOpt (pJust '-')) (textInt fuel))
    (fun p => String.mk (optCons p.1 p.2))

/-- The Integer suffix: one of the case-insensitive keywords b, s, l;
absence means Int width. -/
def intSuffixP (fuel : Nat) : Prs Char IntegerType :=
  pMap (pOpt (choiceL [
      pMap (keywordP "b" true fuel) (fun _ => IntegerType.byte),
      pMap (keywordP "s" true fuel) (fun _ => IntegerType.short),
      pMap (keywordP "l" true fuel) (fun _ => IntegerType.long)]))
    (fun o => o.getD IntegerType.int)

/-- Token::integer from the source: signed digit text, optional width
suffix, then the boundary lookahead (rewound). -/
def integerP (fuel : Nat) : Prs Char Token :=
  pMap (pThenIgnore (pThen (integerTextP fuel) (intSuffixP fuel)) (pRewind boundaryP))
    (fun p => Token.integer p.1 p.2)

/-- The decimal core: either int . digits, or int immediately followed
(lookahead only) by a d or f keyword. -/
def decCoreP (fuel : Nat) : Prs Char (List Char) :=
  pOrD
    (pMap (pThen (pThen (textInt fuel) (pJust '.')) (textDigits fuel))
      (fun p => p.1.1 ++ '.' :: p.2))
    (pThenIgnore (textInt fuel)
      (pRewind (pOrD (keywordP "d" true fuel) (keywordP "f" true fuel))))

/-- The Decimal suffix: d means Double, f means Float, absence means
Double. -/
def decSuffixP (fuel : Nat) : Prs Char DecimalType :=
  pMap (pOpt (pOrD
      (pMap (keywordP "d" true fuel) (fun _ => DecimalType.double))
      (pMap (keywordP "f" true fuel) (fun _ => DecimalType.float))))
    (fun o => o.getD DecimalType.double)

/-- Token::decimal from the source: optional minus, decimal core, width
suffix, then the boundary lookahead (rewound). -/
def decimalP (fuel : Nat) : Prs Char Token :=
  pMap (pThenIgnore
      (pThen (pMap (pThen (pOpt (pJust '-')) (decCoreP fuel)) (fun p => String.mk (optCons p.1 p.2)))
        (decSuffixP fuel))
      (pRewind boundaryP))
    (fun p => Token.decimal p.1 p.2)

/-- Token::identifier from the source: a nonempty run drawn from ASCII
alphanumerics or the one_of set + - _ . -/
def identTokP (fuel : Nat) : Prs Char Token :=
  pMap (pMany1 (pOrD (pSat Char.isAlphanum)
      (pSat (fun c => c = '+' || c = '-' || c = '_' || c = '.'))) fuel)
    (fun cs => Token.identifier (String.mk cs))

/-- The escape alternatives inside string literals. -/
def escapeP : Prs Char Char :=
  pIgnoreThen (pJust (Char.ofNat 92))
    (pOrD (pJust (Char.ofNat 92))
    (pOrD (pJust '/')
    (pOrD (pJust (Char.ofNat 34))
    (pOrD (pJust (Char.ofNat 39))
    (pOrD (pMap (pJust 'b') (fun _ => Char.ofNat 8))
    (pOrD (pMap (pJust 'f') (fun _ => Char.ofNat 12))
    (pOrD (pMap (pJust 'n') (fun _ => Char.ofNat 10))
    (pOrD (pMap (pJust 'r') (fun _ => Char.ofNat 13))
          (pMap (pJust 't') (fun _ => Char.ofNat 9))))))))))

/-- A double-quoted string body. -/
def quotedDoubleP (fuel : Nat) : Prs Char String :=
  pMap (pThenIgnore
      (pIgnoreThen (pJust (Char.ofNat 34))
        (pMany (pOrD (pSat (fun c => !(c = Char.ofNat 92 || c = Char.ofNat 34))) escapeP) fuel))
      (pJust (Char.ofNat 34)))
    (fun cs => String.mk cs)

/-- A single-quoted string body. -/
def quotedSingleP (fuel : Nat) : Prs Char String :=
  pMap (pThenIgnore
      (pIgnoreThen (pJust (Char.ofNat 39))
        (pMany (pOrD (pSat (fun c => !(c = Char.ofNat 92 || c = Char.ofNat 39))) escapeP) fuel))
      (pJust (Char.ofNat 39)))
    (fun cs => String.mk cs)

/-- Token::string_literal from the source: the identifier token parser,
or a quoted string literal. -/
def stringLitP (fuel : Nat) : Prs Char Token :=
  pOrD (identTokP fuel)
    (pMap (pOrD (quotedDoubleP fuel) (quotedSingleP fuel)) Token.stringLiteral)

/-- Token::comma. -/
def commaP : Prs Char Token := pMap (pJust ',') (fun _ => Token.comma)

/-- Token::colon. -/
def colonP : Prs Char Token := pMap (pJust ':') (fun _ => Token.colon)

/-- Token::array_start: open bracket, a case-insensitive one-letter
keyword b, i or l, then a semicolon. -/
def arrayStartP (fuel : Nat) : Prs Char Token :=
  pMap (pThenIgnore
      (pIgnoreThen (pJust '[')
        (choiceL [
          pMap (keywordP "b" true fuel) (fun _ => ArrayType.byte),
          pMap (keywordP "i" true fuel) (fun _ => ArrayType.int),
          pMap (keywordP "l" true fuel) (fun _ => ArrayType.long)]))
      (pJust ';'))
    Token.arrayStart

/-- Token::open_bracket. -/
def openBracketP : Prs Char Token := pMap (pJust '[') (fun _ => Token.openBracket)

/-- Token::close_bracket. -/
def closeBracketP : Prs Char Token := pMap (pJust ']') (fun _ => Token.closeBracket)

/-- Token::open_brace. -/
def openBraceP : Prs Char Token := pMap (pJust (Char.ofNat 123)) (fun _ => Token.openBrace)

/-- Token::close_brace. -/
def closeBraceP : Prs Char Token := pMap (pJust (Char.ofNat 125)) (fun _ => Token.closeBrace)

/-- Token::boolean: the exact C-style keywords true and false. -/
def booleanP (fuel : Nat) : Prs Char Token :=
  pOrD (pMap (textKeywordP "true" fuel) (fun _ => Token.boolean true))
       (pMap (textKeywordP "false" fuel) (fun _ => Token.boolean false))

/-- The one-token lexer: the choice over all token alternatives in the
order they are listed in the token_api! invocation of the source
(comma, colon, array_start, open_bracket, close_bracket, open_brace,
close_brace, boolean, integer, decimal, identifier, string_literal). -/
def lexTokenP (fuel : Nat) : Prs Char Token :=
  choiceL [commaP, colonP, arrayStartP fuel, openBracketP, closeBracketP,
    openBraceP, closeBraceP, booleanP fuel, integerP fuel, decimalP fuel,
    identTokP fuel, stringLitP fuel]

/-- A one-token lexer following the priority order stated by the spec
instead: all six structural single characters first, then ArrayStart,
then the remaining kinds.  This definition follows the words of the
spec (section 4.1) and exists only to be compared with lexTokenP. -/
def lexTokenSpecOrderP (fuel : Nat) : Prs Char Token :=
  choiceL [commaP, colonP, openBracketP, closeBracketP, openBraceP,
    closeBraceP, arrayStartP fuel, booleanP fuel, integerP fuel, decimalP fuel,
    identTokP fuel, stringLitP fuel]

/-- Whitespace padding (chumsky padded). -/
def wsManyP (fuel : Nat) : Prs Char (List Char) :=
  pMany (pSat Char.isWhitespace) fuel

/-- One padded token. -/
def paddedTokP (fuel : Nat) : Prs Char Token :=
  pThenIgnore (pIgnoreThen (wsManyP fuel) (lexTokenP fuel)) (wsManyP fuel)

/-- Token::parse from the source: at least one padded token, then end of
input.  Failure stands for the Err(Vec of Simple char) case with the
diagnostic list abstracted. -/
def tokenize (s : String) : Option (List Token) :=
  match pThenIgnore (pMany1 (paddedTokP (s.data.length + 1)) (s.data.length + 1)) pEnd s.data with
  | some (ts, _) => some ts
  | none => none

/-- The same pipeline built over the spec-order one-token lexer, for the
comparison in claim C1. -/
def paddedTokSpecOrderP (fuel : Nat) : Prs Char Token :=
  pThenIgnore (pIgnoreThen (wsManyP fuel) (lexTokenSpecOrderP fuel)) (wsManyP fuel)

/-- Tokenizer following the priority order of the spec words (claim C1
comparison definition). -/
def tokenizeSpecOrder (s : String) : Option (List Token) :=
  match pThenIgnore (pMany1 (paddedTokSpecOrderP (s.data.length + 1)) (s.data.length + 1)) pEnd s.data with
  | some (ts, _) => some ts
  | none => none

/-! ## The tagged-value tree (external collaborator crate::tag) -/

mutual

/-- Modelled from the spec: the external Tag type (crate::tag, not under
src/) is a closed tagged union over the twelve kinds of section 3 of the
spec; the compound payload is the raw ordered key/value pair sequence the
parser hands to the ordered-mapping collaborator (Map::from_iter), and
the homogeneous list payload is the ListTag union below.  The numeric
integer kinds carry their mathematical value (the source range checks
guarantee the width invariant), and the float and double kinds carry the
literal digit text of the token: IEEE float semantics are outside this
model and no claim inspects a float value, only which texts are accepted. -/
inductive Tag where
  | byte (v : Int)
  | short (v : Int)
  | int (v : Int)
  | long (v : Int)
  | float (text : String)
  | double (text : String)
  | byteArray (vs : List Int)
  | string (s : String)
  | list (l : ListTag)
  | compound (pairs : List (String × Tag))
  | intArray (vs : List Int)
  | longArray (vs : List Int)

/-- Modelled from the spec: the external ListTag type (crate::tag, not
under src/): a homogeneous list tagged by its element kind; the variant
used is determined by the element parser of the winning list production
(ListTag::from on the collected Vec). -/
inductive ListTag where
  | byte (vs : List Int)
  | short (vs : List Int)
  | int (vs : List Int)
  | long (vs : List Int)
  | float (vs : List String)
  | double (vs : List String)
  | byteArray (vs : List (List Int))
  | string (vs : List String)
  | list (vs : List ListTag)
  | compound (vs : List (List (String × Tag)))
  | intArray (vs : List (List Int))
  | longArray (vs : List (List Int))

end

/-! ## Numeric conversion (Rust str::parse on integer token text) -/

/-- The mathematical value of a digit run. -/
def digitsVal (ds : List Char) : Int :=
  ds.foldl (fun acc c => 10 * acc + ((c.toNat : Int) - 48)) 0

/-- Range check shared by the integer conversions. -/
def checkRange (lo hi v : Int) : Option Int :=
  if lo ≤ v ∧ v ≤ hi then some v else none

/-- Rust str::parse for a signed integer type with bounds lo and hi:
an optional sign followed by a nonempty digit run, rejected when the
value exceeds the bounds (never clamped or wrapped). -/
def parseSignedCore (lo hi : Int) (cs : List Char) : Option Int :=
  match cs with
  | [] => none
  | c :: rest =>
    if c = '-' then
      if rest ≠ [] ∧ rest.all Char.isDigit then checkRange lo hi (-(digitsVal rest)) else none
    else if c = '+' then
      if rest ≠ [] ∧ rest.all Char.isDigit then checkRange lo hi (digitsVal rest) else none
    else
      if (c :: rest).all Char.isDigit then checkRange lo hi (digitsVal (c :: rest)) else none

/-- Rust str::parse on the digit text of a token. -/
def parseSigned (lo hi : Int) (s : String) : Option Int :=
  parseSignedCore lo hi s.data

/-- Shape of the digit text of a Decimal token: optional minus, digits,
optionally a point and more digits.  Rust parse::<f32> and parse::<f64>
succeed on every such text (overflow gives an infinity, still Ok), so
the float conversions in the source validate this shape and keep the
literal text as the model of the float value. -/
def decDigitsShape (cs : List Char) : Bool :=
  match cs.span Char.isDigit with
  | (ds, rest) =>
    ds ≠ [] &&
      (match rest with
       | [] => true
       | c :: rest2 => c = '.' && rest2 ≠ [] && rest2.all Char.isDigit)

/-- Shape of a full decimal literal (with optional sign). -/
def decLitShape (s : String) : Bool :=
  match s.data with
  | '-' :: rest => decDigitsShape rest
  | rest => decDigitsShape rest

/-! ## Grammar engine (src/snbt.rs lines 341-468) -/

/-- The byte leaf generated by num_parsers!: an Integer token of Byte
width whose digit text converts within the signed 8-bit range. -/
def byteNum : Prs Token Int := fun ts =>
  match ts with
  | Token.integer digits IntegerType.byte :: rest =>
    match parseSigned (-128) 127 digits with
    | some v => some (v, rest)
    | none => none
  | _ => none

/-- The short leaf: Integer token of Short width within the signed
16-bit range. -/
def shortNum : Prs Token Int := fun ts =>
  match ts with
  | Token.integer digits IntegerType.short :: rest =>
    match parseSigned (-32768) 32767 digits with
    | some v => some (v, rest)
    | none => none
  | _ => none

/-- The int leaf: Integer token of Int width within the signed 32-bit
range. -/
def intNum : Prs Token Int := fun ts =>
  match ts with
  | Token.integer digits IntegerType.int :: rest =>
    match parseSigned (-2147483648) 2147483647 digits with
    | some v => some (v, rest)
    | none => none
  | _ => none

/-- The long leaf: Integer token of Long width within the signed 64-bit
range. -/
def longNum : Prs Token Int := fun ts =>
  match ts with
  | Token.integer digits IntegerType.long :: rest =>
    match parseSigned (-9223372036854775808) 9223372036854775807 digits with
    | some v => some (v, rest)
    | none => none
  | _ => none

/-- The float leaf: a Decimal token of Float width; the conversion by
parse::<f32> succeeds on every token-shaped text, modelled by the shape
check with the literal text kept as the value. -/
def floatNum : Prs Token String := fun ts =>
  match ts with
  | Token.decimal digits DecimalType.float :: rest =>
    if decLitShape digits then some (digits, rest) else none
  | _ => none

/-- The double leaf: a Decimal token of Double width, as for float. -/
def doubleNum : Prs Token String := fun ts =>
  match ts with
  | Token.decimal digits DecimalType.double :: rest =>
    if decLitShape digits then some (digits, rest) else none
  | _ => none

/-- The Boolean(true) alternative of the byte leaf (value 1). -/
def boolTrueTok : Prs Token Int := fun ts =>
  match ts with
  | Token.boolean true :: rest => some (1, rest)
  | _ => none

/-- The Boolean(false) alternative of the byte leaf (value 0). -/
def boolFalseTok : Prs Token Int := fun ts =>
  match ts with
  | Token.boolean false :: rest => some (0, rest)
  | _ => none

/-- The byte parser after the first redefinition (source lines 365-370):
numeric byte or a Boolean token.  This is the element parser of the
Byte array production. -/
def byteWithBool : Prs Token Int :=
  pOrD byteNum (pOrD boolTrueTok boolFalseTok)

/-- The redundant second Boolean alternative added at source lines
385-391 (any Boolean token, true to 1, false to 0). -/
def boolAnyTok : Prs Token Int := fun ts =>
  match ts with
  | Token.boolean b :: rest => some (if b then 1 else 0, rest)
  | _ => none

/-- The byte parser after the second redefinition (source line 385):
used for bare byte values and byte list elements. -/
def byteFull : Prs Token Int :=
  pOrD byteWithBool boolAnyTok

/-- The string leaf: a StringLiteral or an Identifier token, both
yielding their text. -/
def stringTok : Prs Token String := fun ts =>
  match ts with
  | Token.stringLiteral s :: rest => some (s, rest)
  | Token.identifier s :: rest => some (s, rest)
  | _ => none

/-- The comma-separated element loop of separated_by: greedily parse
(separator, element) pairs, backtracking a trailing separator that is
not followed by an element. -/
def sepTail {alpha : Type} (p : Prs Token alpha) : Nat → List Token → (List alpha × List Token)
  | 0, ts => ([], ts)
  | fuel + 1, ts =>
    match ts with
    | Token.comma :: ts1 =>
      match p ts1 with
      | none => ([], ts)
      | some (a, ts2) =>
        match sepTail p fuel ts2 with
        | (as, ts3) => (a :: as, ts3)
    | _ => ([], ts)

/-- chumsky separated_by(just(Comma)), with allow_trailing when the flag
is set: zero or more comma-separated elements; with the flag, one
trailing comma after at least one element is consumed. -/
def sepByComma {alpha : Type} (p : Prs Token alpha) (allowTrailing : Bool) (fuel : Nat) :
    Prs Token (List alpha) := fun ts =>
  match p ts with
  | none => some ([], ts)
  | some (a, ts1) =>
    match sepTail p fuel ts1 with
    | (as, ts2) =>
      if allowTrailing then
        match ts2 with
        | Token.comma :: ts3 => some (a :: as, ts3)
        | _ => some (a :: as, ts2)
      else some (a :: as, ts2)

/-- array_parsers! from the source: elements separated by commas with no
trailing comma, delimited by ArrayStart(kind) and CloseBracket. -/
def arrayOf {alpha : Type} (k : ArrayType) (elem : Prs Token alpha) (fuel : Nat) :
    Prs Token (List alpha) :=
  pThenIgnore (pIgnoreThen (pJust (Token.arrayStart k)) (sepByComma elem false fuel))
    (pJust Token.closeBracket)

/-- One list production of list_maker!: elements separated by commas
with a trailing comma permitted, delimited by brackets. -/
def listGroup {alpha : Type} (p : Prs Token alpha) (fuel : Nat) : Prs Token (List alpha) :=
  pThenIgnore (pIgnoreThen (pJust Token.openBracket) (sepByComma p true fuel))
    (pJust Token.closeBracket)

/-- The twelve list productions of list_maker!, in the fixed source
order byte, short, int, long, float, double, bytearray, string, list,
compound, intarray, longarray; each parses the entire bracketed group
with elements of one kind and wraps it in the ListTag variant
(ListTag::from). -/
def listProdsWith (lp : Prs Token ListTag) (cp : Prs Token (List (String × Tag)))
    (fuel : Nat) : List (Prs Token ListTag) :=
  [pMap (listGroup byteFull fuel) ListTag.byte,
   pMap (listGroup shortNum fuel) ListTag.short,
   pMap (listGroup intNum fuel) ListTag.int,
   pMap (listGroup longNum fuel) ListTag.long,
   pMap (listGroup floatNum fuel) ListTag.float,
   pMap (listGroup doubleNum fuel) ListTag.double,
   pMap (listGroup (arrayOf ArrayType.byte byteWithBool fuel) fuel) ListTag.byteArray,
   pMap (listGroup stringTok fuel) ListTag.string,
   pMap (listGroup lp fuel) ListTag.list,
   pMap (listGroup cp fuel) ListTag.compound,
   pMap (listGroup (arrayOf ArrayType.int intNum fuel) fuel) ListTag.intArray,
   pMap (listGroup (arrayOf ArrayType.long longNum fuel) fuel) ListTag.longArray]

/-- The Value choice (source lines 435-448 and 454-467): the twelve Tag
alternatives in the fixed order compound, list, byte, short, int, long,
float, double, bytearray, intarray, longarray, string, parameterized by
the recursive list and compound parsers. -/
def valueWith (lp : Prs Token ListTag) (cp : Prs Token (List (String × Tag)))
    (fuel : Nat) : Prs Token Tag :=
  choiceL [
    pMap cp Tag.compound,
    pMap lp Tag.list,
    pMap byteFull Tag.byte,
    pMap shortNum Tag.short,
    pMap intNum Tag.int,
    pMap longNum Tag.long,
    pMap floatNum Tag.float,
    pMap doubleNum Tag.double,
    pMap (arrayOf ArrayType.byte byteWithBool fuel) Tag.byteArray,
    pMap (arrayOf ArrayType.int intNum fuel) Tag.intArray,
    pMap (arrayOf ArrayType.long longNum fuel) Tag.longArray,
    pMap stringTok Tag.string]

/-- One compound member: a string key, a colon, and a Value. -/
def pairWith (lp : Prs Token ListTag) (cp : Prs Token (List (String × Tag)))
    (fuel : Nat) : Prs Token (String × Tag) :=
  pThen (pThenIgnore stringTok (pJust Token.colon)) (valueWith lp cp fuel)

mutual

/-- The recursive list parser (Recursive::declare / list.define): the
ordered choice over the twelve list productions.  The fuel decreases at
each recursive nesting level; entry points pass fuel larger than the
token count, and each nesting level consumes at least one token, so the
fuel is never exhausted. -/
def listF : Nat → Prs Token ListTag
  | 0 => fun _ => none
  | n + 1 => choiceL (listProdsWith (listF n) (compoundF n) (n + 1))

/-- The recursive compound parser (compound.define): comma-separated
key-colon-value members with a trailing comma permitted, delimited by
braces; the result is the raw ordered pair list handed to
Map::from_iter. -/
def compoundF : Nat → Prs Token (List (String × Tag))
  | 0 => fun _ => none
  | n + 1 =>
    pThenIgnore
      (pIgnoreThen (pJust Token.openBrace)
        (sepByComma (pairWith (listF n) (compoundF n) (n + 1)) true (n + 1)))
      (pJust Token.closeBrace)

end

/-- parser().parse(tokens) from the source: the top-level Value choice
applied to the token sequence (chumsky parse does not require the whole
stream to be consumed; the source adds no end marker at token level).
Failure stands for the grammar error list, abstracted. -/
def build (ts : List Token) : Option Tag :=
  match valueWith (listF (ts.length + 1)) (compoundF (ts.length + 1)) (ts.length + 1) ts with
  | some (t, _) => some t
  | none => none

/-- ParseError from the source, with the diagnostic payloads (the lists
of Simple errors) abstracted. -/
inductive ParseError where
  | tokenizeError
  | parseFailure
  deriving DecidableEq, Repr

/-- parse from the source: tokenize, then on success build; a lex
failure aborts before any grammar work. -/
def parse (s : String) : Except ParseError Tag :=
  match tokenize s with
  | some ts =>
    match build ts with
    | some tag => Except.ok tag
    | none => Except.error ParseError.parseFailure
  | none => Except.error ParseError.tokenizeError

/-! ## Derived notions used by the theorem statements -/

/-- Width denoted by an optional integer suffix letter; absence means
Int (the claim C4 suffix set). -/
def suffixWidth (sfx : Option Char) : IntegerType :=
  match sfx with
  | none => IntegerType.int
  | some c =>
    if c = 'b' ∨ c = 'B' then IntegerType.byte
    else if c = 's' ∨ c = 'S' then IntegerType.short
    else if c = 'l' ∨ c = 'L' then IntegerType.long
    else IntegerType.int

/-- Lower bound of the signed range of an integer width. -/
def intRangeLo : IntegerType → Int
  | IntegerType.byte => -128
  | IntegerType.short => -32768
  | IntegerType.int => -2147483648
  | IntegerType.long => -9223372036854775808

/-- Upper bound of the signed range of an integer width. -/
def intRangeHi : IntegerType → Int
  | IntegerType.byte => 127
  | IntegerType.short => 32767
  | IntegerType.int => 2147483647
  | IntegerType.long => 9223372036854775807

/-- The Tag constructor belonging to an integer width. -/
def mkIntTag : IntegerType → Int → Tag
  | IntegerType.byte => Tag.byte
  | IntegerType.short => Tag.short
  | IntegerType.int => Tag.int
  | IntegerType.long => Tag.long

/-- The characters contributed by an optional suffix letter. -/
def sfxChars (sfx : Option Char) : List Char :=
  match sfx with
  | some c => [c]
  | none => []

/-- Render a signed integer literal: optional minus sign, digit run,
optional one-letter suffix. -/
def renderNum (neg : Bool) (ds : List Char) (sfx : Option Char) : String :=
  String.mk ((if neg then ['-'] else []) ++ ds ++ sfxChars sfx)

/-- The boundary condition on the rest of the input after a numeric
token: end of input, or a character that is neither alphanumeric nor
one of _ + - . (claim C3). -/
def boundaryOkRest : List Char → Prop
  | [] => True
  | c :: _ => isBoundaryChar c = true

/-- The ten decimal digit characters (used to quantify over digit
strings in claim C4). -/
def digitList : List Char :=
  ['0', '1', '2', '3', '4', '5', '6', '7', '8', '9']

/-! ## General combinator lemmas -/

set_option maxRecDepth 8000

theorem pOrD_eq_of_some {tau alpha : Type} (p q : Prs tau alpha) (ts : List tau)
    (r : alpha × List tau) (h : p ts = some r) : pOrD p q ts = some r := by
  simp [pOrD, h]

theorem pOrD_eq_of_none {tau alpha : Type} (p q : Prs tau alpha) (ts : List tau)
    (h : p ts = none) : pOrD p q ts = q ts := by
  simp [pOrD, h]

/-- Characterization of ordered choice: a successful result comes from
the first alternative that succeeds, all earlier alternatives failing
on the same input. -/
theorem choiceL_eq_some_iff {tau alpha : Type} (ps : List (Prs tau alpha)) (ts : List tau)
    (r : alpha × List tau) :
    choiceL ps ts = some r ↔
      ∃ n : Nat, ∃ h : n < ps.length,
        (ps.get ⟨n, h⟩) ts = some r ∧ ∀ p ∈ ps.take n, p ts = none := by
  induction ps with
  | nil =>
    simp [choiceL]
  | cons p ps ih =>
    constructor
    · intro h
      cases hp : p ts with
      | some r' =>
        rw [show choiceL (p :: ps) ts = some r' from pOrD_eq_of_some p (choiceL ps) ts r' hp] at h
        refine ⟨0, Nat.succ_pos _, ?_, ?_⟩
        · rw [List.get]
          rw [hp, h]
        · intro q hq
          simp at hq
      | none =>
        rw [show choiceL (p :: ps) ts = choiceL ps ts from pOrD_eq_of_none p (choiceL ps) ts hp] at h
        obtain ⟨n, hn, hget, htake⟩ := (ih).mp h
        refine ⟨n + 1, Nat.succ_lt_succ hn, ?_, ?_⟩
        · rw [List.get]
          exact hget
        · intro q hq
          rw [List.take_succ_cons] at hq
          rcases List.mem_cons.mp hq with hq | hq
          · rw [hq]
            exact hp
          · exact htake q hq
    · rintro ⟨n, hn, hget, htake⟩
      cases n with
      | zero =>
        rw [List.get] at hget
        exact pOrD_eq_of_some p (choiceL ps) ts r hget
      | succ m =>
        have hp : p ts = none := by
          apply htake
          rw [List.take_succ_cons]
          exact List.mem_cons_self _ _
        rw [show choiceL (p :: ps) ts = choiceL ps ts from pOrD_eq_of_none p (choiceL ps) ts hp]
        apply (ih).mpr
        refine ⟨m, Nat.lt_of_succ_lt_succ hn, ?_, ?_⟩
        · rw [List.get] at hget
          exact hget
        · intro q hq
          apply htake
          rw [List.take_succ_cons]
          exact List.mem_cons_of_mem _ hq

/-! ## Claim theorems -/

/-- C10: the bare top-level inputs true and false lex as Boolean tokens
(Boolean is tried before Identifier) and parse as Byte tags with values
1 and 0 (the byte alternative precedes the string alternative in the
Value choice), never as String tags. -/
theorem c10_bare_booleans :
    tokenize "true" = some [Token.boolean true] ∧
    tokenize "false" = some [Token.boolean false] ∧
    parse "true" = Except.ok (Tag.byte 1) ∧
    parse "false" = Except.ok (Tag.byte 0) :=
  ⟨rfl, rfl, rfl, rfl⟩

/-- C9: when a digit run is extended by identifier characters in a way
that violates the numeric boundary rule for every numeric alternative
(the inputs 1. and 1-2 and 123.5.6), the Integer and Decimal token
alternatives reject (shown at the fuel the tokenizer passes), the whole
run lexes as a single Identifier token, and parse returns a String tag
holding the raw text. -/
theorem c9_boundary_fallback_to_identifier :
    integerP 3 (String.data "1.") = none ∧
    decimalP 3 (String.data "1.") = none ∧
    tokenize "1." = some [Token.identifier "1."] ∧
    parse "1." = Except.ok (Tag.string "1.") ∧
    integerP 4 (String.data "1-2") = none ∧
    decimalP 4 (String.data "1-2") = none ∧
    tokenize "1-2" = some [Token.identifier "1-2"] ∧
    parse "1-2" = Except.ok (Tag.string "1-2") ∧
    integerP 8 (String.data "123.5.6") = none ∧
    decimalP 8 (String.data "123.5.6") = none ∧
    tokenize "123.5.6" = some [Token.identifier "123.5.6"] ∧
    parse "123.5.6" = Except.ok (Tag.string "123.5.6") :=
  ⟨rfl, rfl, rfl, rfl, rfl, rfl, rfl, rfl, rfl, rfl, rfl, rfl⟩

/-- C1 counterexample: the lexer does not try the token kinds in the
priority order stated by the spec (all six structural single characters
before ArrayStart).  On the input [b;] the spec order commits the
structural open bracket first and then fails on the unlexable semicolon,
while the implemented lexer (ArrayStart before OpenBracket) produces an
ArrayStart token and tokenizes the input. -/
theorem c1_counterexample :
    lexTokenSpecOrderP 5 (String.data "[b;]") = some (Token.openBracket, ['b', ';', ']']) ∧
    lexTokenP 5 (String.data "[b;]") = some (Token.arrayStart ArrayType.byte, [']']) ∧
    tokenizeSpecOrder "[b;]" = none ∧
    tokenize "[b;]" = some [Token.arrayStart ArrayType.byte, Token.closeBracket] ∧
    ¬ tokenize "[b;]" = tokenizeSpecOrder "[b;]" := by
  refine ⟨rfl, rfl, rfl, rfl, ?_⟩
  intro h
  rw [show tokenize "[b;]" = some [Token.arrayStart ArrayType.byte, Token.closeBracket] from rfl] at h
  rw [show tokenizeSpecOrder "[b;]" = none from rfl] at h
  exact Option.noConfusion h

/-- C1 (amended): at every input position the lexer tries token kinds in
the fixed priority order comma, colon, ArrayStart, OpenBracket,
CloseBracket, OpenBrace, CloseBrace, Boolean, Integer, Decimal,
Identifier, StringLiteral, backtracking with no side effect (a failed
alternative leaves the input where it was), and the first kind that
fully matches produces the token; in particular ArrayStart takes
priority over the structural open bracket, so an input beginning with
an open bracket, a one-letter b/i/l keyword and a semicolon lexes as
ArrayStart. -/
theorem c1_amended_priority_order :
    (∀ (p q : Prs Char Token) (cs : List Char), p cs = none → pOrD p q cs = q cs) ∧
    (∀ (p q : Prs Char Token) (cs : List Char) (r : Token × List Char),
      p cs = some r → pOrD p q cs = some r) ∧
    (∀ (fuel : Nat) (cs : List Char),
      lexTokenP fuel cs =
        choiceL [commaP, colonP, arrayStartP fuel, openBracketP, closeBracketP,
          openBraceP, closeBraceP, booleanP fuel, integerP fuel, decimalP fuel,
          identTokP fuel, stringLitP fuel] cs) ∧
    tokenize "[b;]" = some [Token.arrayStart ArrayType.byte, Token.closeBracket] ∧
    tokenize "[i;-3]" =
      some [Token.arrayStart ArrayType.int, Token.integer "-3" IntegerType.int,
        Token.closeBracket] ∧
    tokenize "[L;0]" =
      some [Token.arrayStart ArrayType.long, Token.integer "0" IntegerType.int,
        Token.closeBracket] ∧
    tokenize "[x]" = some [Token.openBracket, Token.identifier "x", Token.closeBracket] ∧
    tokenize "true" = some [Token.boolean true] ∧
    tokenize "12b" = some [Token.integer "12" IntegerType.byte] ∧
    tokenize "1.5" = some [Token.decimal "1.5" DecimalType.double] ∧
    tokenize "abc" = some [Token.identifier "abc"] ∧
    tokenize "\"ab\"" = some [Token.stringLiteral "ab"] :=
  ⟨fun p q cs h => pOrD_eq_of_none p q cs h,
   fun p q cs r h => pOrD_eq_of_some p q cs r h,
   fun _ _ => rfl, rfl, rfl, rfl, rfl, rfl, rfl, rfl, rfl, rfl⟩

theorem c1_amended_witness :
    pOrD commaP colonP (String.data ":") = colonP (String.data ":") ∧
    pOrD commaP colonP (String.data ",") = some (Token.comma, []) :=
  ⟨c1_amended_priority_order.1 commaP colonP (String.data ":") rfl,
   c1_amended_priority_order.2.1 commaP colonP (String.data ",") (Token.comma, []) rfl⟩

/-- C6: typed arrays instantiate the element loop without trailing
commas while lists and compounds instantiate it with allow_trailing;
the general conjunct shows the allow_trailing loop accepts exactly one
more trailing comma than the plain loop after a nonempty element
sequence, and the concrete conjuncts show the implied behavior at the
claimed inputs. -/
theorem c6_trailing_commas :
    (∀ (alpha : Type) (p : Prs Token alpha) (fuel : Nat) (ts : List Token)
       (vs : List alpha) (ts2 : List Token),
       sepByComma p false fuel ts = some (vs, ts2) →
       sepByComma p true fuel ts =
         some (vs,
           match vs, ts2 with
           | _ :: _, Token.comma :: ts3 => ts3
           | _, _ => ts2)) ∧
    parse "[B;1b,2b]" = Except.ok (Tag.byteArray [1, 2]) ∧
    parse "[B;1b,2b,]" = Except.error ParseError.parseFailure ∧
    parse "[B; true, false, 5b]" = Except.ok (Tag.byteArray [1, 0, 5]) ∧
    parse "[B; 1,2,]" = Except.error ParseError.parseFailure ∧
    parse "[I;1,2,]" = Except.error ParseError.parseFailure ∧
    parse "[L;1l,2l,]" = Except.error ParseError.parseFailure ∧
    parse "[1b,2b,]" = Except.ok (Tag.list (ListTag.byte [1, 2])) ∧
    parse "\x7ba:1,\x7d" = Except.ok (Tag.compound [("a", Tag.int 1)]) := by
  refine ⟨?_, rfl, rfl, rfl, rfl, rfl, rfl, rfl, rfl⟩
  intro alpha p fuel ts vs ts2 h
  simp only [sepByComma] at h ⊢
  cases hp : p ts with
  | none =>
    simp only [hp] at h ⊢
    injection h with h2
    injection h2 with hv ht
    subst hv
    subst ht
    rfl
  | some ar =>
    obtain ⟨a, ts1⟩ := ar
    simp only [hp] at h ⊢
    rcases hst : sepTail p fuel ts1 with ⟨vs3, ts3⟩
    simp only [hst] at h ⊢
    rw [if_neg (by decide)] at h
    injection h with h2
    injection h2 with hv ht
    subst hv
    subst ht
    rw [if_pos trivial]
    cases ts3 with
    | nil => rfl
    | cons t rest =>
      cases t <;> rfl

theorem c6_witness :
    sepByComma byteWithBool true 9
      [Token.integer "1" IntegerType.byte, Token.comma, Token.closeBracket] =
      some ([1], [Token.closeBracket]) :=
  c6_trailing_commas.1 Int byteWithBool 9
    [Token.integer "1" IntegerType.byte, Token.comma, Token.closeBracket]
    [1] [Token.comma, Token.closeBracket] rfl

/-- C8: a String leaf accepts a StringLiteral token and an Identifier
token interchangeably with the same denoted text, so parsing a compound
with a quoted value and parsing it with the same bare value produce
identical trees. -/
theorem c8_quoted_bare_string_equivalence :
    (∀ (s : String) (rest : List Token),
      stringTok (Token.stringLiteral s :: rest) = some (s, rest)) ∧
    (∀ (s : String) (rest : List Token),
      stringTok (Token.identifier s :: rest) = some (s, rest)) ∧
    tokenize "\x7ba:\"x\"\x7d" =
      some [Token.openBrace, Token.identifier "a", Token.colon,
        Token.stringLiteral "x", Token.closeBrace] ∧
    tokenize "\x7ba:x\x7d" =
      some [Token.openBrace, Token.identifier "a", Token.colon,
        Token.identifier "x", Token.closeBrace] ∧
    parse "\x7ba:\"x\"\x7d" = parse "\x7ba:x\x7d" ∧
    parse "\x7ba:x\x7d" = Except.ok (Tag.compound [("a", Tag.string "x")]) :=
  ⟨fun _ _ => rfl, fun _ _ => rfl, rfl, rfl, rfl, rfl⟩

/-- Inversion for pMap: a successful mapped parse comes from a
successful inner parse on the same input with the same rest. -/
theorem pMap_eq_some_inv {tau alpha beta : Type} {p : Prs tau alpha} {f : alpha → beta}
    {cs : List tau} {b : beta} {rest : List tau}
    (h : pMap p f cs = some (b, rest)) :
    ∃ a, p cs = some (a, rest) ∧ b = f a := by
  cases hp : p cs with
  | none => simp [pMap, hp] at h
  | some ar =>
    obtain ⟨a, ts1⟩ := ar
    simp only [pMap, hp] at h
    injection h with h2
    injection h2 with hb ht
    exact ⟨a, congrArg (fun x => some (a, x)) ht, hb.symm⟩

/-- A successful boundary lookahead means the input is at its end or at
a boundary character. -/
theorem boundaryP_some {rest : List Char} {r : Char × List Char}
    (h : boundaryP rest = some r) : boundaryOkRest rest := by
  cases rest with
  | nil => trivial
  | cons c cs =>
    cases hb : isBoundaryChar c with
    | true => exact hb
    | false => simp [boundaryP, pOrD, pSat, pMap, pEnd, hb] at h

/-- Any parser that ends with the rewound boundary lookahead leaves the
input at a position satisfying the boundary condition. -/
theorem pThenIgnore_rewind_boundary {alpha : Type} (X : Prs Char alpha) (cs rest : List Char)
    (a : alpha) (h : pThenIgnore X (pRewind boundaryP) cs = some (a, rest)) :
    boundaryOkRest rest := by
  cases hX : X cs with
  | none => simp [pThenIgnore, pMap, pThen, hX] at h
  | some xr =>
    obtain ⟨x, ts1⟩ := xr
    cases hB : boundaryP ts1 with
    | none => simp [pThenIgnore, pMap, pThen, pRewind, hX, hB] at h
    | some br =>
      obtain ⟨b, ts2⟩ := br
      simp only [pThenIgnore, pMap, pThen, pRewind, hX, hB] at h
      injection h with h2
      injection h2 with hx ht
      subst ht
      exact boundaryP_some hB

/-- C3: an Integer or Decimal token is only produced when the input
right after the matched text is end-of-input or a character that is
neither alphanumeric nor one of _ + - . ; consequently 123.5 fails the
Integer alternative (the next character would be the point) and the
whole text lexes as a single Decimal token. -/
theorem c3_numeric_boundary_rule :
    (∀ (fuel : Nat) (cs rest : List Char) (tok : Token),
      integerP fuel cs = some (tok, rest) → boundaryOkRest rest) ∧
    (∀ (fuel : Nat) (cs rest : List Char) (tok : Token),
      decimalP fuel cs = some (tok, rest) → boundaryOkRest rest) ∧
    integerP 6 (String.data "123.5") = none ∧
    tokenize "123.5" = some [Token.decimal "123.5" DecimalType.double] ∧
    parse "123.5" = Except.ok (Tag.double "123.5") := by
  refine ⟨?_, ?_, rfl, rfl, rfl⟩
  · intro fuel cs rest tok h
    simp only [integerP] at h
    obtain ⟨a, ha, _⟩ := pMap_eq_some_inv h
    exact pThenIgnore_rewind_boundary _ cs rest a ha
  · intro fuel cs rest tok h
    simp only [decimalP] at h
    obtain ⟨a, ha, _⟩ := pMap_eq_some_inv h
    exact pThenIgnore_rewind_boundary _ cs rest a ha

theorem c3_witness :
    boundaryOkRest ([] : List Char) ∧ boundaryOkRest [']'] :=
  ⟨c3_numeric_boundary_rule.1 3 (String.data "5b") [] (Token.integer "5" IntegerType.byte) rfl,
   c3_numeric_boundary_rule.2.1 6 (String.data "1.5]") [']']
     (Token.decimal "1.5" DecimalType.double) rfl⟩

/-- C5: a Boolean token is an accepted alternative of the byte parsers
(the bare byte parser and the byte array element parser), converting
true to 1 and false to 0, and is never accepted by the short, int,
long, float or double parsers. -/
theorem c5_boolean_byte_positions :
    (∀ (b : Bool) (rest : List Token), shortNum (Token.boolean b :: rest) = none) ∧
    (∀ (b : Bool) (rest : List Token), intNum (Token.boolean b :: rest) = none) ∧
    (∀ (b : Bool) (rest : List Token), longNum (Token.boolean b :: rest) = none) ∧
    (∀ (b : Bool) (rest : List Token), floatNum (Token.boolean b :: rest) = none) ∧
    (∀ (b : Bool) (rest : List Token), doubleNum (Token.boolean b :: rest) = none) ∧
    (∀ rest : List Token, byteFull (Token.boolean true :: rest) = some (1, rest)) ∧
    (∀ rest : List Token, byteFull (Token.boolean false :: rest) = some (0, rest)) ∧
    (∀ rest : List Token, byteWithBool (Token.boolean true :: rest) = some (1, rest)) ∧
    (∀ rest : List Token, byteWithBool (Token.boolean false :: rest) = some (0, rest)) ∧
    parse "true" = Except.ok (Tag.byte 1) ∧
    parse "false" = Except.ok (Tag.byte 0) ∧
    parse "[B; true, false, 5b]" = Except.ok (Tag.byteArray [1, 0, 5]) ∧
    parse "[I;true]" = Except.error ParseError.parseFailure ∧
    parse "[L;true]" = Except.error ParseError.parseFailure :=
  ⟨fun _ _ => rfl, fun _ _ => rfl, fun _ _ => rfl, fun _ _ => rfl, fun _ _ => rfl,
   fun _ => rfl, fun _ => rfl, fun _ => rfl, fun _ => rfl,
   rfl, rfl, rfl, rfl, rfl⟩

/-- C7: parse has exactly two disjoint failure phases tried in order:
a tokenization failure yields TokenizeError before any grammar work,
grammar failure yields ParseFailure only after a successful
tokenization, and otherwise the built Tag is returned; the result type
never carries a partial tree alongside an error. -/
theorem c7_two_disjoint_phases :
    ∀ s : String,
      (tokenize s = none → parse s = Except.error ParseError.tokenizeError) ∧
      (∀ ts : List Token, tokenize s = some ts →
        (build ts = none → parse s = Except.error ParseError.parseFailure) ∧
        (∀ t : Tag, build ts = some t → parse s = Except.ok t)) := by
  intro s
  refine ⟨?_, ?_⟩
  · intro h
    simp [parse, h]
  · intro ts hts
    refine ⟨?_, ?_⟩
    · intro hb
      simp [parse, hts, hb]
    · intro t hb
      simp [parse, hts, hb]

theorem c7_witness :
    parse ";" = Except.error ParseError.tokenizeError ∧
    parse "]" = Except.error ParseError.parseFailure ∧
    parse "0" = Except.ok (Tag.int 0) :=
  ⟨(c7_two_disjoint_phases ";").1 rfl,
   ((c7_two_disjoint_phases "]").2 [Token.closeBracket] rfl).1 rfl,
   ((c7_two_disjoint_phases "0").2 [Token.integer "0" IntegerType.int] rfl).2 (Tag.int 0) rfl⟩

/-- C2: a bracketed group is parsed by the ordered choice over the
twelve per-kind list productions byte, short, int, long, float, double,
bytearray, string, list, compound, intarray, longarray, each applied to
the entire group; a successful list parse comes from the first
production that parses the whole group, all earlier productions failing
on the same group (whole-group fixed-priority matching, not a rule
driven by the first element: the empty group matches the byte
production, the highest priority). -/
theorem c2_list_whole_group_priority :
    (∀ (n : Nat) (ts : List Token) (r : ListTag × List Token),
      listF (n + 1) ts = some r ↔
        ∃ k : Nat, ∃ hk : k < (listProdsWith (listF n) (compoundF n) (n + 1)).length,
          ((listProdsWith (listF n) (compoundF n) (n + 1)).get ⟨k, hk⟩) ts = some r ∧
          ∀ p ∈ (listProdsWith (listF n) (compoundF n) (n + 1)).take k, p ts = none) ∧
    (∀ (lp : Prs Token ListTag) (cp : Prs Token (List (String × Tag))) (fuel : Nat),
      (listProdsWith lp cp fuel).length = 12) ∧
    parse "[]" = Except.ok (Tag.list (ListTag.byte [])) ∧
    parse "[1b,2b,3b]" = Except.ok (Tag.list (ListTag.byte [1, 2, 3])) ∧
    parse "[1b,true]" = Except.ok (Tag.list (ListTag.byte [1, 1])) ∧
    parse "[1,2]" = Except.ok (Tag.list (ListTag.int [1, 2])) ∧
    parse "[[],[1b]]" = Except.ok (Tag.list (ListTag.list [ListTag.byte [], ListTag.byte [1]])) ∧
    parse "[1b,2s]" = Except.error ParseError.parseFailure := by
  refine ⟨?_, fun _ _ _ => rfl, rfl, rfl, rfl, rfl, rfl, rfl⟩
  intro n ts r
  rw [show listF (n + 1) = choiceL (listProdsWith (listF n) (compoundF n) (n + 1)) from rfl]
  exact choiceL_eq_some_iff _ ts r

theorem c2_witness :
    listF 1 [Token.openBracket, Token.closeBracket] = some (ListTag.byte [], []) := by
  apply (c2_list_whole_group_priority.1 0 [Token.openBracket, Token.closeBracket]
    (ListTag.byte [], [])).mpr
  refine ⟨0, by decide, rfl, ?_⟩
  intro p hp
  simp at hp

/-! ## Lemmas for claim C4 (integer literal round trip) -/

/-- Character class facts about the ten digit characters, used to drive
the lexer through a rendered integer literal. -/
theorem digitChar_facts {d : Char} (hd : d ∈ digitList) :
    d.isDigit = true ∧ d.isAlpha = false ∧ d.isWhitespace = false ∧
    ¬ d = '-' ∧ ¬ d = '+' ∧ ¬ d = '_' ∧ ¬ d = ',' ∧ ¬ d = ':' ∧
    ¬ d = '[' ∧ ¬ d = ']' ∧ ¬ d = Char.ofNat 123 ∧ ¬ d = Char.ofNat 125 := by
  fin_cases hd <;> decide

theorem pMap_none {tau alpha beta : Type} (p : Prs tau alpha) (f : alpha → beta)
    (ts : List tau) (h : p ts = none) : pMap p f ts = none := by
  simp [pMap, h]

theorem pMap_some {tau alpha beta : Type} (p : Prs tau alpha) (f : alpha → beta)
    (ts : List tau) (a : alpha) (rest : List tau) (h : p ts = some (a, rest)) :
    pMap p f ts = some (f a, rest) := by
  simp [pMap, h]

/-- Greedy repetition of a character filter consumes exactly a run of
satisfying characters when the following character does not satisfy the
filter and the fuel exceeds the run length. -/
theorem pMany_sat_append (f : Char → Bool) (xs rest : List Char) (fuel : Nat)
    (hxs : ∀ c ∈ xs, f c = true)
    (hrest : ∀ c cs2, rest = c :: cs2 → f c = false)
    (hfuel : xs.length < fuel) :
    pMany (pSat f) fuel (xs ++ rest) = some (xs, rest) := by
  induction xs generalizing fuel with
  | nil =>
    cases fuel with
    | zero => exact absurd hfuel (Nat.lt_irrefl 0)
    | succ m =>
      cases rest with
      | nil => rfl
      | cons c cs2 =>
        have hc : f c = false := hrest c cs2 rfl
        simp [pMany, pSat, hc]
  | cons x xs ih =>
    cases fuel with
    | zero => exact absurd hfuel (Nat.not_lt_zero _)
    | succ m =>
      have hx : f x = true := hxs x (List.mem_cons_self x xs)
      have hm : xs.length < m := Nat.lt_of_succ_lt_succ (by simpa using hfuel)
      have ihm := ih m (fun c hc => hxs c (List.mem_cons_of_mem x hc)) hm
      simp [pMany, pSat, hx, ihm]

/-- chumsky text::int consumes exactly a rendered digit run with no
leading zero (or the single digit zero) when the following character is
not a digit. -/
theorem textInt_append (ds rest : List Char) (fuel : Nat)
    (hne : ds ≠ [])
    (hdig : ∀ c ∈ ds, c ∈ digitList)
    (hlead : ds.head? ≠ some '0' ∨ ds = ['0'])
    (hrest : ∀ c cs2, rest = c :: cs2 → c.isDigit = false)
    (hfuel : ds.length ≤ fuel) :
    textInt fuel (ds ++ rest) = some (ds, rest) := by
  cases ds with
  | nil => exact absurd rfl hne
  | cons d ds2 =>
    rcases hlead with hlead | hlead
    · have hd0 : ¬ d = '0' := by
        intro h
        subst h
        exact hlead rfl
      have hd : d.isDigit = true := (digitChar_facts (hdig d (List.mem_cons_self d ds2))).1
      have hds2 : ∀ c ∈ ds2, Char.isDigit c = true :=
        fun c hc => (digitChar_facts (hdig c (List.mem_cons_of_mem d hc))).1
      have hmany : pMany (pSat Char.isDigit) fuel (ds2 ++ rest) = some (ds2, rest) :=
        pMany_sat_append Char.isDigit ds2 rest fuel hds2 hrest (by simpa using hfuel)
      simp [textInt, pOrD, pMap, pThen, pSat, hd, hd0, hmany]
    · injection hlead with h1 h2
      subst h1
      subst h2
      simp [textInt, pOrD, pMap, pThen, pSat, pJust]

/-- The signed digit text parser of the Integer token consumes exactly
the rendered sign and digit run. -/
theorem integerTextP_append (neg : Bool) (ds rest : List Char) (fuel : Nat)
    (hne : ds ≠ [])
    (hdig : ∀ c ∈ ds, c ∈ digitList)
    (hlead : ds.head? ≠ some '0' ∨ ds = ['0'])
    (hrest : ∀ c cs2, rest = c :: cs2 → c.isDigit = false)
    (hfuel : ds.length ≤ fuel) :
    integerTextP fuel ((if neg then ['-'] else []) ++ ds ++ rest) =
      some (String.mk ((if neg then ['-'] else []) ++ ds), rest) := by
  have hT := textInt_append ds rest fuel hne hdig hlead hrest hfuel
  cases neg with
  | true =>
    simp only [if_pos trivial, List.cons_append, List.nil_append]
    simp [integerTextP, pMap, pThen, pOpt, pJust, pSat, optCons, hT]
  | false =>
    obtain ⟨d, ds2, rfl⟩ : ∃ d ds2, ds = d :: ds2 := by
      cases ds with
      | nil => exact absurd rfl hne
      | cons d ds2 => exact ⟨d, ds2, rfl⟩
    have hdm : ¬ d = '-' := (digitChar_facts (hdig d (List.mem_cons_self d ds2))).2.2.2.1
    simp only [List.cons_append] at hT
    simp [integerTextP, pMap, pThen, pOpt, pJust, pSat, optCons, hdm, hT]

/-- The Integer token parser accepts a rendered integer literal whole,
producing the signed digit text and the width of the suffix. -/
theorem integerP_render (neg : Bool) (ds : List Char) (sfx : Option Char) (m : Nat)
    (hne : ds ≠ [])
    (hdig : ∀ c ∈ ds, c ∈ digitList)
    (hlead : ds.head? ≠ some '0' ∨ ds = ['0'])
    (hsfx : sfx = none ∨ sfx = some 'b' ∨ sfx = some 'B' ∨ sfx = some 's' ∨
            sfx = some 'S' ∨ sfx = some 'l' ∨ sfx = some 'L')
    (hfuel : ds.length ≤ m + 1) :
    integerP (m + 1) ((renderNum neg ds sfx).data) =
      some (Token.integer (String.mk ((if neg then ['-'] else []) ++ ds)) (suffixWidth sfx), []) := by
  rcases hsfx with rfl | rfl | rfl | rfl | rfl | rfl | rfl
  · have hText := integerTextP_append neg ds [] (m + 1) hne hdig hlead
      (fun c cs2 h => absurd h (by simp)) hfuel
    show integerP (m + 1) ((if neg then ['-'] else []) ++ ds ++ []) = _
    simp only [integerP, pMap, pThenIgnore, pThen, hText]
    rfl
  · have hText := integerTextP_append neg ds ['b'] (m + 1) hne hdig hlead
      (fun c cs2 h => by injection h with h1 h2; subst h1; rfl) hfuel
    show integerP (m + 1) ((if neg then ['-'] else []) ++ ds ++ ['b']) = _
    simp only [integerP, pMap, pThenIgnore, pThen, hText]
    rfl
  · have hText := integerTextP_append neg ds ['B'] (m + 1) hne hdig hlead
      (fun c cs2 h => by injection h with h1 h2; subst h1; rfl) hfuel
    show integerP (m + 1) ((if neg then ['-'] else []) ++ ds ++ ['B']) = _
    simp only [integerP, pMap, pThenIgnore, pThen, hText]
    rfl
  · have hText := integerTextP_append neg ds ['s'] (m + 1) hne hdig hlead
      (fun c cs2 h => by injection h with h1 h2; subst h1; rfl) hfuel
    show integerP (m + 1) ((if neg then ['-'] else []) ++ ds ++ ['s']) = _
    simp only [integerP, pMap, pThenIgnore, pThen, hText]
    rfl
  · have hText := integerTextP_append neg ds ['S'] (m + 1) hne hdig hlead
      (fun c cs2 h => by injection h with h1 h2; subst h1; rfl) hfuel
    show integerP (m + 1) ((if neg then ['-'] else []) ++ ds ++ ['S']) = _
    simp only [integerP, pMap, pThenIgnore, pThen, hText]
    rfl
  · have hText := integerTextP_append neg ds ['l'] (m + 1) hne hdig hlead
      (fun c cs2 h => by injection h with h1 h2; subst h1; rfl) hfuel
    show integerP (m + 1) ((if neg then ['-'] else []) ++ ds ++ ['l']) = _
    simp only [integerP, pMap, pThenIgnore, pThen, hText]
    rfl
  · have hText := integerTextP_append neg ds ['L'] (m + 1) hne hdig hlead
      (fun c cs2 h => by injection h with h1 h2; subst h1; rfl) hfuel
    show integerP (m + 1) ((if neg then ['-'] else []) ++ ds ++ ['L']) = _
    simp only [integerP, pMap, pThenIgnore, pThen, hText]
    rfl

/-- When the head character is not structural, not an opening quote
position for a keyword, and not alphabetic, the first eight token
alternatives fail and the lexer continues with the numeric and
identifier alternatives from the same position. -/
theorem lexTokenP_skip_to_numeric (fuel : Nat) (h0 : Char) (tail : List Char)
    (halpha : h0.isAlpha = false)
    (h1 : ¬ h0 = ',') (h2 : ¬ h0 = ':') (h3 : ¬ h0 = '[') (h4 : ¬ h0 = ']')
    (h5 : ¬ h0 = Char.ofNat 123) (h6 : ¬ h0 = Char.ofNat 125) (h7 : ¬ h0 = '_') :
    lexTokenP fuel (h0 :: tail) =
      choiceL [integerP fuel, decimalP fuel, identTokP fuel, stringLitP fuel] (h0 :: tail) := by
  have hcomma : commaP (h0 :: tail) = none := by simp [commaP, pMap, pJust, pSat, h1]
  have hcolon : colonP (h0 :: tail) = none := by simp [colonP, pMap, pJust, pSat, h2]
  have harr : arrayStartP fuel (h0 :: tail) = none := by
    simp [arrayStartP, pMap, pThenIgnore, pIgnoreThen, pThen, pJust, pSat, h3]
  have hob : openBracketP (h0 :: tail) = none := by
    simp [openBracketP, pMap, pJust, pSat, h3]
  have hcb : closeBracketP (h0 :: tail) = none := by
    simp [closeBracketP, pMap, pJust, pSat, h4]
  have hobr : openBraceP (h0 :: tail) = none := by
    simp [openBraceP, pMap, pJust, pSat, h5]
  have hcbr : closeBraceP (h0 :: tail) = none := by
    simp [closeBraceP, pMap, pJust, pSat, h6]
  have hbool : booleanP fuel (h0 :: tail) = none := by
    simp [booleanP, textKeywordP, textIdentP, pOrD, pMap, pThen, pSat, halpha, h7]
  simp only [lexTokenP, choiceL]
  rw [pOrD_eq_of_none _ _ _ hcomma, pOrD_eq_of_none _ _ _ hcolon,
    pOrD_eq_of_none _ _ _ harr, pOrD_eq_of_none _ _ _ hob, pOrD_eq_of_none _ _ _ hcb,
    pOrD_eq_of_none _ _ _ hobr, pOrD_eq_of_none _ _ _ hcbr, pOrD_eq_of_none _ _ _ hbool]

/-- The one-token lexer fails at end of input. -/
theorem lexTokenP_nil (fuel : Nat) : lexTokenP fuel [] = none := rfl

/-- On a rendered integer literal the lexer produces exactly the
Integer token, consuming the entire input. -/
theorem lexTokenP_render_integer (neg : Bool) (ds : List Char) (sfx : Option Char) (m : Nat)
    (hne : ds ≠ [])
    (hdig : ∀ c ∈ ds, c ∈ digitList)
    (hlead : ds.head? ≠ some '0' ∨ ds = ['0'])
    (hsfx : sfx = none ∨ sfx = some 'b' ∨ sfx = some 'B' ∨ sfx = some 's' ∨
            sfx = some 'S' ∨ sfx = some 'l' ∨ sfx = some 'L')
    (hfuel : ds.length ≤ m + 1) :
    lexTokenP (m + 1) ((renderNum neg ds sfx).data) =
      some (Token.integer (String.mk ((if neg then ['-'] else []) ++ ds)) (suffixWidth sfx), []) := by
  have hInt := integerP_render neg ds sfx m hne hdig hlead hsfx hfuel
  cases neg with
  | true =>
    have e : (renderNum true ds sfx).data = '-' :: (ds ++ sfxChars sfx) := rfl
    rw [e] at hInt ⊢
    rw [lexTokenP_skip_to_numeric (m + 1) '-' _ (by decide) (by decide) (by decide)
      (by decide) (by decide) (by decide) (by decide) (by decide)]
    simp only [choiceL]
    exact pOrD_eq_of_some _ _ _ _ hInt
  | false =>
    obtain ⟨d, ds2, rfl⟩ : ∃ d ds2, ds = d :: ds2 := by
      cases ds with
      | nil => exact absurd rfl hne
      | cons d ds2 => exact ⟨d, ds2, rfl⟩
    have hf := digitChar_facts (hdig d (List.mem_cons_self d ds2))
    have e : (renderNum false (d :: ds2) sfx).data = d :: (ds2 ++ sfxChars sfx) := rfl
    rw [e] at hInt ⊢
    rw [lexTokenP_skip_to_numeric (m + 1) d _ hf.2.1 hf.2.2.2.2.2.2.1 hf.2.2.2.2.2.2.2.1
      hf.2.2.2.2.2.2.2.2.1 hf.2.2.2.2.2.2.2.2.2.1 hf.2.2.2.2.2.2.2.2.2.2.1
      hf.2.2.2.2.2.2.2.2.2.2.2 hf.2.2.2.2.2.1]
    simp only [choiceL]
    exact pOrD_eq_of_some _ _ _ _ hInt

/-- Whitespace padding consumes nothing at end of input. -/
theorem wsManyP_nil (m : Nat) : wsManyP (m + 1) [] = some ([], []) := rfl

/-- The full tokenizer on an input that lexes as exactly one token with
no surrounding whitespace. -/
theorem tokenize_single (h0 : Char) (tail : List Char) (tok : Token)
    (hwsf : h0.isWhitespace = false)
    (hlex : lexTokenP ((h0 :: tail).length + 1) (h0 :: tail) = some (tok, [])) :
    tokenize (String.mk (h0 :: tail)) = some [tok] := by
  have hws : wsManyP ((h0 :: tail).length + 1) (h0 :: tail) = some ([], h0 :: tail) := by
    simp [wsManyP, pMany, pSat, hwsf]
  have hpad : paddedTokP ((h0 :: tail).length + 1) (h0 :: tail) = some (tok, []) := by
    simp only [paddedTokP, pThenIgnore, pIgnoreThen, pMap, pThen, hws, hlex, wsManyP_nil]
  have hpadnil : paddedTokP ((h0 :: tail).length + 1) [] = none := by
    simp only [paddedTokP, pThenIgnore, pIgnoreThen, pMap, pThen, wsManyP_nil, lexTokenP_nil]
  show (match pThenIgnore (pMany1 (paddedTokP ((h0 :: tail).length + 1))
      ((h0 :: tail).length + 1)) pEnd (h0 :: tail) with
    | some (ts, _) => some ts
    | none => none) = some [tok]
  simp only [pThenIgnore, pMap, pThen, pMany1, hpad, pMany, hpadnil, pEnd]

/-- The tokenizer turns a rendered integer literal into exactly one
Integer token carrying the signed digit text and the suffix width. -/
theorem tokenize_render (neg : Bool) (ds : List Char) (sfx : Option Char)
    (hne : ds ≠ [])
    (hdig : ∀ c ∈ ds, c ∈ digitList)
    (hlead : ds.head? ≠ some '0' ∨ ds = ['0'])
    (hsfx : sfx = none ∨ sfx = some 'b' ∨ sfx = some 'B' ∨ sfx = some 's' ∨
            sfx = some 'S' ∨ sfx = some 'l' ∨ sfx = some 'L') :
    tokenize (renderNum neg ds sfx) =
      some [Token.integer (String.mk ((if neg then ['-'] else []) ++ ds)) (suffixWidth sfx)] := by
  have hlen : ds.length ≤ (renderNum neg ds sfx).data.length + 1 := by
    have e : (renderNum neg ds sfx).data = (if neg then ['-'] else []) ++ ds ++ sfxChars sfx := rfl
    rw [e]
    simp only [List.append_assoc, List.length_append]
    omega
  have hlex := lexTokenP_render_integer neg ds sfx ((renderNum neg ds sfx).data.length)
    hne hdig hlead hsfx hlen
  cases neg with
  | true =>
    exact tokenize_single '-' (ds ++ sfxChars sfx) _ (by decide) hlex
  | false =>
    obtain ⟨d, ds2, rfl⟩ : ∃ d ds2, ds = d :: ds2 := by
      cases ds with
      | nil => exact absurd rfl hne
      | cons d ds2 => exact ⟨d, ds2, rfl⟩
    have hf := digitChar_facts (hdig d (List.mem_cons_self d ds2))
    exact tokenize_single d (ds2 ++ sfxChars sfx) _ hf.2.2.1 hlex

/-- Building a single Integer token: the Value choice reduces to the
numeric leaf of the declared width, converting the digit text under the
range of that width; every other alternative rejects the token. -/
theorem build_single_integer (text : String) (w : IntegerType) :
    build [Token.integer text w] =
      match parseSigned (intRangeLo w) (intRangeHi w) text with
      | some v => some (mkIntTag w v)
      | none => none := by
  cases w with
  | byte =>
    simp only [intRangeLo, intRangeHi, mkIntTag]
    have hcomp : compoundF 2 [Token.integer text IntegerType.byte] = none := rfl
    have hlist : listF 2 [Token.integer text IntegerType.byte] = none := rfl
    have hshort : shortNum [Token.integer text IntegerType.byte] = none := rfl
    have hint : intNum [Token.integer text IntegerType.byte] = none := rfl
    have hlong : longNum [Token.integer text IntegerType.byte] = none := rfl
    have hfloat : floatNum [Token.integer text IntegerType.byte] = none := rfl
    have hdouble : doubleNum [Token.integer text IntegerType.byte] = none := rfl
    have harrB : arrayOf ArrayType.byte byteWithBool 2 [Token.integer text IntegerType.byte] = none := rfl
    have harrI : arrayOf ArrayType.int intNum 2 [Token.integer text IntegerType.byte] = none := rfl
    have harrL : arrayOf ArrayType.long longNum 2 [Token.integer text IntegerType.byte] = none := rfl
    have hstr : stringTok [Token.integer text IntegerType.byte] = none := rfl
    cases hps : parseSigned (-128) 127 text with
    | some v =>
      have hok : byteFull [Token.integer text IntegerType.byte] = some (v, []) := by
        simp only [byteFull, byteWithBool, pOrD, byteNum, hps]
      show (match valueWith (listF 2) (compoundF 2) 2 [Token.integer text IntegerType.byte] with
        | some (t, _) => some t
        | none => none) = some (Tag.byte v)
      simp only [valueWith, choiceL]
      rw [pOrD_eq_of_none _ _ _ (pMap_none _ _ _ hcomp),
        pOrD_eq_of_none _ _ _ (pMap_none _ _ _ hlist),
        pOrD_eq_of_some _ _ _ _ (pMap_some _ _ _ v [] hok)]
    | none =>
      have hbf : byteFull [Token.integer text IntegerType.byte] = none := by
        simp only [byteFull, byteWithBool, pOrD, byteNum, hps, boolTrueTok, boolFalseTok, boolAnyTok]
      show (match valueWith (listF 2) (compoundF 2) 2 [Token.integer text IntegerType.byte] with
        | some (t, _) => some t
        | none => none) = none
      simp only [valueWith, choiceL]
      rw [pOrD_eq_of_none _ _ _ (pMap_none _ _ _ hcomp),
        pOrD_eq_of_none _ _ _ (pMap_none _ _ _ hlist),
        pOrD_eq_of_none _ _ _ (pMap_none _ _ _ hbf),
        pOrD_eq_of_none _ _ _ (pMap_none _ _ _ hshort),
        pOrD_eq_of_none _ _ _ (pMap_none _ _ _ hint),
        pOrD_eq_of_none _ _ _ (pMap_none _ _ _ hlong),
        pOrD_eq_of_none _ _ _ (pMap_none _ _ _ hfloat),
        pOrD_eq_of_none _ _ _ (pMap_none _ _ _ hdouble),
        pOrD_eq_of_none _ _ _ (pMap_none _ _ _ harrB),
        pOrD_eq_of_none _ _ _ (pMap_none _ _ _ harrI),
        pOrD_eq_of_none _ _ _ (pMap_none _ _ _ harrL),
        pOrD_eq_of_none _ _ _ (pMap_none _ _ _ hstr)]
  | short =>
    simp only [intRangeLo, intRangeHi, mkIntTag]
    have hcomp : compoundF 2 [Token.integer text IntegerType.short] = none := rfl
    have hlist : listF 2 [Token.integer text IntegerType.short] = none := rfl
    have hbf : byteFull [Token.integer text IntegerType.short] = none := rfl
    have hint : intNum [Token.integer text IntegerType.short] = none := rfl
    have hlong : longNum [Token.integer text IntegerType.short] = none := rfl
    have hfloat : floatNum [Token.integer text IntegerType.short] = none := rfl
    have hdouble : doubleNum [Token.integer text IntegerType.short] = none := rfl
    have harrB : arrayOf ArrayType.byte byteWithBool 2 [Token.integer text IntegerType.short] = none := rfl
    have harrI : arrayOf ArrayType.int intNum 2 [Token.integer text IntegerType.short] = none := rfl
    have harrL : arrayOf ArrayType.long longNum 2 [Token.integer text IntegerType.short] = none := rfl
    have hstr : stringTok [Token.integer text IntegerType.short] = none := rfl
    cases hps : parseSigned (-32768) 32767 text with
    | some v =>
      have hok : shortNum [Token.integer text IntegerType.short] = some (v, []) := by
        simp only [shortNum, hps]
      show (match valueWith (listF 2) (compoundF 2) 2 [Token.integer text IntegerType.short] with
        | some (t, _) => some t
        | none => none) = some (Tag.short v)
      simp only [valueWith, choiceL]
      rw [pOrD_eq_of_none _ _ _ (pMap_none _ _ _ hcomp),
        pOrD_eq_of_none _ _ _ (pMap_none _ _ _ hlist),
        pOrD_eq_of_none _ _ _ (pMap_none _ _ _ hbf),
        pOrD_eq_of_some _ _ _ _ (pMap_some _ _ _ v [] hok)]
    | none =>
      have hw : shortNum [Token.integer text IntegerType.short] = none := by
        simp only [shortNum, hps]
      show (match valueWith (listF 2) (compoundF 2) 2 [Token.integer text IntegerType.short] with
        | some (t, _) => some t
        | none => none) = none
      simp only [valueWith, choiceL]
      rw [pOrD_eq_of_none _ _ _ (pMap_none _ _ _ hcomp),
        pOrD_eq_of_none _ _ _ (pMap_none _ _ _ hlist),
        pOrD_eq_of_none _ _ _ (pMap_none _ _ _ hbf),
        pOrD_eq_of_none _ _ _ (pMap_none _ _ _ hw),
        pOrD_eq_of_none _ _ _ (pMap_none _ _ _ hint),
        pOrD_eq_of_none _ _ _ (pMap_none _ _ _ hlong),
        pOrD_eq_of_none _ _ _ (pMap_none _ _ _ hfloat),
        pOrD_eq_of_none _ _ _ (pMap_none _ _ _ hdouble),
        pOrD_eq_of_none _ _ _ (pMap_none _ _ _ harrB),
        pOrD_eq_of_none _ _ _ (pMap_none _ _ _ harrI),
        pOrD_eq_of_none _ _ _ (pMap_none _ _ _ harrL),
        pOrD_eq_of_none _ _ _ (pMap_none _ _ _ hstr)]
  | int =>
    simp only [intRangeLo, intRangeHi, mkIntTag]
    have hcomp : compoundF 2 [Token.integer text IntegerType.int] = none := rfl
    have hlist : listF 2 [Token.integer text IntegerType.int] = none := rfl
    have hbf : byteFull [Token.integer text IntegerType.int] = none := rfl
    have hshort : shortNum [Token.integer text IntegerType.int] = none := rfl
    have hlong : longNum [Token.integer text IntegerType.int] = none := rfl
    have hfloat : floatNum [Token.integer text IntegerType.int] = none := rfl
    have hdouble : doubleNum [Token.integer text IntegerType.int] = none := rfl
    have harrB : arrayOf ArrayType.byte byteWithBool 2 [Token.integer text IntegerType.int] = none := rfl
    have harrI : arrayOf ArrayType.int intNum 2 [Token.integer text IntegerType.int] = none := rfl
    have harrL : arrayOf ArrayType.long longNum 2 [Token.integer text IntegerType.int] = none := rfl
    have hstr : stringTok [Token.integer text IntegerType.int] = none := rfl
    cases hps : parseSigned (-2147483648) 2147483647 text with
    | some v =>
      have hok : intNum [Token.integer text IntegerType.int] = some (v, []) := by
        simp only [intNum, hps]
      show (match valueWith (listF 2) (compoundF 2) 2 [Token.integer text IntegerType.int] with
        | some (t, _) => some t
        | none => none) = some (Tag.int v)
      simp only [valueWith, choiceL]
      rw [pOrD_eq_of_none _ _ _ (pMap_none _ _ _ hcomp),
        pOrD_eq_of_none _ _ _ (pMap_none _ _ _ hlist),
        pOrD_eq_of_none _ _ _ (pMap_none _ _ _ hbf),
        pOrD_eq_of_none _ _ _ (pMap_none _ _ _ hshort),
        pOrD_eq_of_some _ _ _ _ (pMap_some _ _ _ v [] hok)]
    | none =>
      have hw : intNum [Token.integer text IntegerType.int] = none := by
        simp only [intNum, hps]
      show (match valueWith (listF 2) (compoundF 2) 2 [Token.integer text IntegerType.int] with
        | some (t, _) => some t
        | none => none) = none
      simp only [valueWith, choiceL]
      rw [pOrD_eq_of_none _ _ _ (pMap_none _ _ _ hcomp),
        pOrD_eq_of_none _ _ _ (pMap_none _ _ _ hlist),
        pOrD_eq_of_none _ _ _ (pMap_none _ _ _ hbf),
        pOrD_eq_of_none _ _ _ (pMap_none _ _ _ hshort),
        pOrD_eq_of_none _ _ _ (pMap_none _ _ _ hw),
        pOrD_eq_of_none _ _ _ (pMap_none _ _ _ hlong),
        pOrD_eq_of_none _ _ _ (pMap_none _ _ _ hfloat),
        pOrD_eq_of_none _ _ _ (pMap_none _ _ _ hdouble),
        pOrD_eq_of_none _ _ _ (pMap_none _ _ _ harrB),
        pOrD_eq_of_none _ _ _ (pMap_none _ _ _ harrI),
        pOrD_eq_of_none _ _ _ (pMap_none _ _ _ harrL),
        pOrD_eq_of_none _ _ _ (pMap_none _ _ _ hstr)]
  | long =>
    simp only [intRangeLo, intRangeHi, mkIntTag]
    have hcomp : compoundF 2 [Token.integer text IntegerType.long] = none := rfl
    have hlist : listF 2 [Token.integer text IntegerType.long] = none := rfl
    have hbf : byteFull [Token.integer text IntegerType.long] = none := rfl
    have hshort : shortNum [Token.integer text IntegerType.long] = none := rfl
    have hint : intNum [Token.integer text IntegerType.long] = none := rfl
    have hfloat : floatNum [Token.integer text IntegerType.long] = none := rfl
    have hdouble : doubleNum [Token.integer text IntegerType.long] = none := rfl
    have harrB : arrayOf ArrayType.byte byteWithBool 2 [Token.integer text IntegerType.long] = none := rfl
    have harrI : arrayOf ArrayType.int intNum 2 [Token.integer text IntegerType.long] = none := rfl
    have harrL : arrayOf ArrayType.long longNum 2 [Token.integer text IntegerType.long] = none := rfl
    have hstr : stringTok [Token.integer text IntegerType.long] = none := rfl
    cases hps : parseSigned (-9223372036854775808) 9223372036854775807 text with
    | some v =>
      have hok : longNum [Token.integer text IntegerType.long] = some (v, []) := by
        simp only [longNum, hps]
      show (match valueWith (listF 2) (compoundF 2) 2 [Token.integer text IntegerType.long] with
        | some (t, _) => some t
        | none => none) = some (Tag.long v)
      simp only [valueWith, choiceL]
      rw [pOrD_eq_of_none _ _ _ (pMap_none _ _ _ hcomp),
        pOrD_eq_of_none _ _ _ (pMap_none _ _ _ hlist),
        pOrD_eq_of_none _ _ _ (pMap_none _ _ _ hbf),
        pOrD_eq_of_none _ _ _ (pMap_none _ _ _ hshort),
        pOrD_eq_of_none _ _ _ (pMap_none _ _ _ hint),
        pOrD_eq_of_some _ _ _ _ (pMap_some _ _ _ v [] hok)]
    | none =>
      have hw : longNum [Token.integer text IntegerType.long] = none := by
        simp only [longNum, hps]
      show (match valueWith (listF 2) (compoundF 2) 2 [Token.integer text IntegerType.long] with
        | some (t, _) => some t
        | none => none) = none
      simp only [valueWith, choiceL]
      rw [pOrD_eq_of_none _ _ _ (pMap_none _ _ _ hcomp),
        pOrD_eq_of_none _ _ _ (pMap_none _ _ _ hlist),
        pOrD_eq_of_none _ _ _ (pMap_none _ _ _ hbf),
        pOrD_eq_of_none _ _ _ (pMap_none _ _ _ hshort),
        pOrD_eq_of_none _ _ _ (pMap_none _ _ _ hint),
        pOrD_eq_of_none _ _ _ (pMap_none _ _ _ hw),
        pOrD_eq_of_none _ _ _ (pMap_none _ _ _ hfloat),
        pOrD_eq_of_none _ _ _ (pMap_none _ _ _ hdouble),
        pOrD_eq_of_none _ _ _ (pMap_none _ _ _ harrB),
        pOrD_eq_of_none _ _ _ (pMap_none _ _ _ harrI),
        pOrD_eq_of_none _ _ _ (pMap_none _ _ _ harrL),
        pOrD_eq_of_none _ _ _ (pMap_none _ _ _ hstr)]

/-- Rust str::parse on a rendered signed digit string: the exact value
when it lies within the bounds, otherwise failure. -/
theorem parseSigned_render (neg : Bool) (ds : List Char) (lo hi : Int)
    (hne : ds ≠ [])
    (hdig : ∀ c ∈ ds, c ∈ digitList) :
    parseSigned lo hi (String.mk ((if neg then ['-'] else []) ++ ds)) =
      (if lo ≤ (if neg then -digitsVal ds else digitsVal ds) ∧
          (if neg then -digitsVal ds else digitsVal ds) ≤ hi
       then some (if neg then -digitsVal ds else digitsVal ds)
       else none) := by
  have hall : ds.all Char.isDigit = true :=
    List.all_eq_true.mpr (fun c hc => (digitChar_facts (hdig c hc)).1)
  cases neg with
  | true =>
    show parseSignedCore lo hi ('-' :: ds) = _
    simp only [parseSignedCore]
    rw [if_pos trivial, if_pos ⟨hne, hall⟩]
    simp [checkRange]
  | false =>
    obtain ⟨d, ds2, rfl⟩ : ∃ d ds2, ds = d :: ds2 := by
      cases ds with
      | nil => exact absurd rfl hne
      | cons d ds2 => exact ⟨d, ds2, rfl⟩
    have hf := digitChar_facts (hdig d (List.mem_cons_self d ds2))
    show parseSignedCore lo hi (d :: ds2) = _
    simp only [parseSignedCore]
    rw [if_neg hf.2.2.2.1, if_neg hf.2.2.2.2.1, if_pos hall]
    simp [checkRange]

/-- C4 counterexample: the claim quantifies over every signed
decimal-digit string, but a digit string with a leading zero is not
lexed as an Integer token at all: 007b falls through to the Identifier
alternative (chumsky text::int accepts no leading zero), so parse
returns a String tag instead of the Byte tag with value 7 that the
claim requires (7 fits the signed 8-bit range), and no error either. -/
theorem c4_counterexample :
    parse "007b" = Except.ok (Tag.string "007b") ∧
    ¬ parse "007b" = Except.ok (Tag.byte 7) := by
  refine ⟨rfl, ?_⟩
  intro h
  rw [show parse "007b" = Except.ok (Tag.string "007b") from rfl] at h
  injection h with h2
  exact Tag.noConfusion h2

/-- C4 (amended): for every signed decimal-digit string d with no
leading zero (first digit nonzero, or d exactly 0 or -0) and suffix s
in the empty suffix or the one-letter case-insensitive suffixes b, s, l,
parse of the rendered literal returns the integer Tag of the width
declared by the suffix (absence means Int) holding the exact
mathematical value of d whenever that value fits the signed range of
the target width, and otherwise returns a grammar (ParseFailure) error;
the value is never clamped or wrapped. -/
theorem c4_integer_literal_roundtrip (neg : Bool) (ds : List Char) (sfx : Option Char)
    (hne : ds ≠ [])
    (hdig : ∀ c ∈ ds, c ∈ digitList)
    (hlead : ds.head? ≠ some '0' ∨ ds = ['0'])
    (hsfx : sfx = none ∨ sfx = some 'b' ∨ sfx = some 'B' ∨ sfx = some 's' ∨
            sfx = some 'S' ∨ sfx = some 'l' ∨ sfx = some 'L') :
    parse (renderNum neg ds sfx) =
      (if intRangeLo (suffixWidth sfx) ≤ (if neg then -digitsVal ds else digitsVal ds) ∧
          (if neg then -digitsVal ds else digitsVal ds) ≤ intRangeHi (suffixWidth sfx)
       then Except.ok (mkIntTag (suffixWidth sfx) (if neg then -digitsVal ds else digitsVal ds))
       else Except.error ParseError.parseFailure) := by
  have htok := tokenize_render neg ds sfx hne hdig hlead hsfx
  have hbuild := build_single_integer (String.mk ((if neg then ['-'] else []) ++ ds))
    (suffixWidth sfx)
  have hps := parseSigned_render neg ds (intRangeLo (suffixWidth sfx))
    (intRangeHi (suffixWidth sfx)) hne hdig
  simp only [parse, htok, hbuild, hps]
  by_cases h : intRangeLo (suffixWidth sfx) ≤ (if neg then -digitsVal ds else digitsVal ds) ∧
      (if neg then -digitsVal ds else digitsVal ds) ≤ intRangeHi (suffixWidth sfx)
  · rw [if_pos h, if_pos h]
  · rw [if_neg h, if_neg h]

theorem c4_witness :
    parse "200b" = Except.error ParseError.parseFailure ∧
    parse "-10b" = Except.ok (Tag.byte (-10)) ∧
    parse "127b" = Except.ok (Tag.byte 127) ∧
    parse "69s" = Except.ok (Tag.short 69) ∧
    parse "420" = Except.ok (Tag.int 420) ∧
    parse "69420l" = Except.ok (Tag.long 69420) := by
  refine ⟨?_, ?_, ?_, ?_, ?_, ?_⟩
  · have h := c4_integer_literal_roundtrip false ['2', '0', '0'] (some 'b') (by decide)
      (by decide) (Or.inl (by decide)) (Or.inr (Or.inl rfl))
    exact h.trans (by rfl)
  · have h := c4_integer_literal_roundtrip true ['1', '0'] (some 'b') (by decide)
      (by decide) (Or.inl (by decide)) (Or.inr (Or.inl rfl))
    exact h.trans (by rfl)
  · have h := c4_integer_literal_roundtrip false ['1', '2', '7'] (some 'b') (by decide)
      (by decide) (Or.inl (by decide)) (Or.inr (Or.inl rfl))
    exact h.trans (by rfl)
  · have h := c4_integer_literal_roundtrip false ['6', '9'] (some 's') (by decide)
      (by decide) (Or.inl (by decide)) (Or.inr (Or.inr (Or.inr (Or.inl rfl))))
    exact h.trans (by rfl)
  · have h := c4_integer_literal_roundtrip false ['4', '2', '0'] none (by decide)
      (by decide) (Or.inl (by decide)) (Or.inl rfl)
    exact h.trans (by rfl)
  · have h := c4_integer_literal_roundtrip false ['6', '9', '4', '2', '0'] (some 'l')
      (by decide) (by decide) (Or.inl (by decide))
      (Or.inr (Or.inr (Or.inr (Or.inr (Or.inr (Or.inl rfl))))))
    exact h.trans (by rfl)
